import Mathlib

/-!
Verification of the shtola static-content build pipeline
(`src/shtola/src/lib.rs`) via a shallow embedding in Lean.

File contents (`String` read by `read_to_string`) are embedded as `List Char`,
paths (`PathBuf`) as `List String` of components, I/O errors as `Nat` codes
(2 stands for NotFound), and fallible operations return `Except Nat`. -/

set_option maxRecDepth 4000

/-- Text of a file, the `String` contents produced by `read_to_string`. -/
abbrev Text := List Char

/-- A filesystem path (`PathBuf`), as its list of components. -/
abbrev FsPath := List String

namespace frontmatter

/-- The front-matter fence delimiter: a line of three dashes. -/
def fence : Text := ['-', '-', '-']

/-- Split text into its lines at each newline character.
`splitLines` of empty text is one empty line; a trailing newline yields a
final empty line. Always returns a nonempty list. -/
def splitLines : Text → List Text
  | [] => [[]]
  | c :: rest =>
    if c = '\n' then [] :: splitLines rest
    else
      match splitLines rest with
      | [] => [[c]]
      | l :: ls => (c :: l) :: ls

/-- Join lines back with newline separators (inverse of `splitLines`). -/
def joinLines : List Text → Text
  | [] => []
  | [l] => l
  | l :: l2 :: ls => l ++ '\n' :: joinLines (l2 :: ls)

/-- Index of the first fence line in a list of lines, if any. -/
def findFence : List Text → Option Nat
  | [] => none
  | l :: ls => if l = fence then some 0 else (findFence ls).map (· + 1)

/-- Modelled from the spec: the `frontmatter::lexer` function, whose source
file `src/frontmatter.rs` is absent from the repository snapshot (only its
callers in `lib.rs` are present). Per the spec, fence detection is
line-oriented: if the first line is exactly the fence and a later line is
again exactly the fence, the metadata block is everything strictly between
the two fence lines and the body is everything after the closing fence
line; otherwise the metadata block is empty and the whole text is the body. -/
def lexer (text : Text) : Text × Text :=
  match splitLines text with
  | [] => ([], text)
  | first :: rest =>
    if first = fence then
      match findFence rest with
      | none => ([], text)
      | some i => (joinLines (rest.take i), joinLines (rest.drop (i + 1)))
    else ([], text)

/-- Modelled from the spec: the external structured-document parser invoked
by `frontmatter::to_yaml` (absent from the snapshot together with
`src/frontmatter.rs`). Per the spec it turns the raw metadata block into an
ordered sequence of documents, normally zero (for an empty block) or one. -/
def to_yaml (matter : Text) : List Text :=
  if matter = [] then [] else [matter]

end frontmatter

/-- A File Record (`ShFile` in `lib.rs`): parsed front-matter documents
(`frontmatter: Vec<Yaml>`, each document embedded as its raw text) and the
content bytes with front matter stripped (`content: Vec<u8>`). -/
structure ShFile where
  frontmatter : List Text
  content : Text
deriving DecidableEq, Repr

/-- The configuration (`Config` in `lib.rs`): ignore list, source root,
destination root, clean flag and front-matter flag. `Default` gives empty
lists/paths and false flags. -/
structure Config where
  ignores : List FsPath
  source : FsPath
  destination : FsPath
  clean : Bool
  frontmatter : Bool
deriving DecidableEq, Repr

/-- The `Default::default()` configuration. -/
def defaultConfig : Config :=
  { ignores := [], source := [], destination := [], clean := false, frontmatter := false }

/-- The File Store, `im::HashMap<PathBuf, ShFile>`, embedded as an
association list with unique keys and insert-replaces semantics. -/
abbrev Store := List (FsPath × ShFile)

/-- Map insertion (`im::HashMap::insert`): replace the value at an existing
key, or add the binding if the key is absent. -/
def storeInsert (k : FsPath) (v : ShFile) : Store → Store
  | [] => [(k, v)]
  | (k2, v2) :: rest => if k2 = k then (k, v) :: rest else (k2, v2) :: storeInsert k v rest

/-- The intermediate representation (`IR` in `lib.rs`): File Store plus
configuration snapshot. -/
structure IR where
  files : Store
  config : Config
deriving DecidableEq, Repr

/-- Modelled from the spec: the external `ware` crate used for the
middleware pipeline (its source is not part of this repository). Per the
spec contract, `wrap` appends a stage to an ordered list and `run` folds
the list left-to-right over the initial value. -/
structure Ware (α : Type) where
  fns : List (α → α)

/-- An empty middleware chain (`Ware::new`). -/
def Ware.new {α : Type} : Ware α := ⟨[]⟩

/-- Modelled from the spec: `Ware::wrap` appends a stage to the ordered
list of stages. -/
def Ware.wrap {α : Type} (w : Ware α) (f : α → α) : Ware α := ⟨w.fns ++ [f]⟩

/-- Modelled from the spec: `Ware::run` folds the stage list left-to-right,
each stage receiving the output of its predecessor. -/
def Ware.run {α : Type} (w : Ware α) (x : α) : α := w.fns.foldl (fun acc f => f acc) x

/-- The builder state (`Shtola` in `lib.rs`): middleware chain plus IR. -/
structure Shtola where
  ware : Ware IR
  ir : IR

/-- `Shtola::new()`: empty middleware, empty file store, default config. -/
def Shtola.new : Shtola := ⟨Ware.new, ⟨[], defaultConfig⟩⟩

/-- A `Shtola` whose configuration setters have already been applied,
leaving configuration `c`: empty middleware and empty file store. -/
def mkShtola (c : Config) : Shtola := ⟨Ware.new, ⟨[], c⟩⟩

/-- `Rust Vec::dedup`: remove only CONSECUTIVE repeated elements. -/
def vecDedup : List FsPath → List FsPath
  | [] => []
  | [a] => [a]
  | a :: b :: rest => if a = b then vecDedup (b :: rest) else a :: vecDedup (b :: rest)

/-- `Shtola::ignores`: append the given paths to `config.ignores`, then
call `Vec::dedup` on the result. -/
def Shtola.ignores (s : Shtola) (v : List FsPath) : Shtola :=
  { s with ir := { s.ir with config :=
      { s.ir.config with ignores := vecDedup (s.ir.config.ignores ++ v) } } }

/-- `Shtola::register`: wrap the stage into the middleware chain. -/
def Shtola.register (s : Shtola) (f : IR → IR) : Shtola :=
  { s with ware := s.ware.wrap f }

/-- Registering a whole list of stages one by one, in order. -/
def registerAll (s : Shtola) (stages : List (IR → IR)) : Shtola :=
  stages.foldl Shtola.register s

/-- One entry produced by the external directory walk (`walkdir`): its
absolute path, whether it is a directory, and the outcome of
`File::open(path)?.read_to_string(...)` — either the decoded text or the
I/O error code raised for an unreadable or non-UTF-8 file. -/
structure Entry where
  path : FsPath
  isDirectory : Bool
  data : Except Nat Text

/-- The filesystem state a build runs against: whether the destination
directory exists, and the walk of the source tree. -/
structure World where
  destExists : Bool
  entries : List Entry

/-- `pathdiff::diff_paths(path, base)`: the path relative to `base`, here
for the only case the code exercises (paths below the source root). -/
def diff_paths (path base : FsPath) : Option FsPath :=
  if base <+: path then some (path.drop base.length) else none

/-- The relative path under which `read_dir` keys an entry:
`diff_paths(path, source).unwrap()`. -/
def relKey (source : FsPath) (e : Entry) : FsPath :=
  (diff_paths e.path source).getD []

/-- The File Record `read_dir` builds from decoded file text: lex the front
matter, parse it, and keep the remaining body as content. -/
def recordOf (t : Text) : ShFile :=
  ⟨frontmatter.to_yaml (frontmatter.lexer t).1, (frontmatter.lexer t).2⟩

/-- The `for entry in iters` loop body of `read_dir`: process entries in
walk order, aborting with the first read error, inserting each record
under its source-relative path. -/
def read_dir_go (source : FsPath) : List Entry → Store → Except Nat Store
  | [], acc => Except.ok acc
  | e :: rest, acc =>
    match e.data with
    | Except.error n => Except.error n
    | Except.ok t => read_dir_go source rest (storeInsert (relKey source e) (recordOf t) acc)

/-- `read_dir` in `lib.rs`: walk the source tree, skip directories, read
each file, split off front matter, and key the record by the path relative
to the source root. Note the function receives only the source path — no
configuration. -/
def read_dir (source : FsPath) (entries : List Entry) : Except Nat Store :=
  read_dir_go source (entries.filter (fun e => !e.isDirectory)) []

/-- `write_dir` in `lib.rs`: for every (path, record) pair of the result
IR, write the record content bytes to `destination/path`. Embedded as the
list of (absolute path, bytes) writes performed. -/
def write_dir (ir : IR) (dest : FsPath) : List (FsPath × Text) :=
  ir.files.map (fun pf => (dest ++ pf.1, pf.2.content))

/-- The clean phase of `Shtola::build`: `fs::remove_dir_all(destination)?`
followed by recreation. `remove_dir_all` fails with NotFound (code 2) when
the destination does not exist; the `?` propagates that error. -/
def cleanPhase (destE : Bool) : Except Nat Unit :=
  if destE then Except.ok () else Except.error 2

/-- `Shtola::build`: optional clean phase, directory read into the IR,
middleware run on the read IR, and write of the result files under the
destination stored in the pre-pipeline configuration. Returns the result
IR together with the writes performed. -/
def build (s : Shtola) (w : World) : Except Nat (IR × List (FsPath × Text)) :=
  match (if s.ir.config.clean then cleanPhase w.destExists else Except.ok ()) with
  | Except.error n => Except.error n
  | Except.ok _ =>
    match read_dir s.ir.config.source w.entries with
    | Except.error n => Except.error n
    | Except.ok files =>
      let ir2 : IR := ⟨files, s.ir.config⟩
      let result := s.ware.run ir2
      Except.ok (result, write_dir result s.ir.config.destination)

namespace frontmatter

theorem splitLines_ne_nil (t : Text) : splitLines t ≠ [] := by
  cases t with
  | nil => simp [splitLines]
  | cons c rest =>
    by_cases h : c = '\n'
    · simp [splitLines, h]
    · simp only [splitLines, if_neg h]
      cases hs : splitLines rest <;> simp

theorem joinLines_splitLines (t : Text) : joinLines (splitLines t) = t := by
  induction t with
  | nil => rfl
  | cons c rest ih =>
    by_cases h : c = '\n'
    · subst h
      simp only [splitLines, if_pos rfl]
      cases hs : splitLines rest with
      | nil => exact absurd hs (splitLines_ne_nil rest)
      | cons l ls =>
        rw [hs] at ih
        simpa [joinLines] using ih
    · simp only [splitLines, if_neg h]
      cases hs : splitLines rest with
      | nil => exact absurd hs (splitLines_ne_nil rest)
      | cons l ls =>
        rw [hs] at ih
        cases ls with
        | nil =>
          simp only [joinLines] at ih ⊢
          rw [ih]
        | cons l2 ls2 =>
          simp only [joinLines, List.cons_append] at ih ⊢
          rw [ih]

theorem splitLines_append (a b : Text) :
    splitLines (a ++ '\n' :: b) = splitLines a ++ splitLines b := by
  induction a with
  | nil => simp [splitLines]
  | cons c a ih =>
    by_cases h : c = '\n'
    · subst h
      show splitLines ('\n' :: (a ++ '\n' :: b)) = splitLines ('\n' :: a) ++ splitLines b
      rw [splitLines, splitLines, if_pos rfl, if_pos rfl, ih, List.cons_append]
    · show splitLines (c :: (a ++ '\n' :: b)) = splitLines (c :: a) ++ splitLines b
      rw [splitLines, splitLines, if_neg h, if_neg h, ih]
      cases hs : splitLines a with
      | nil => exact absurd hs (splitLines_ne_nil a)
      | cons l ls => simp

theorem findFence_eq_none {ls : List Text} (h : fence ∉ ls) : findFence ls = none := by
  induction ls with
  | nil => rfl
  | cons l ls ih =>
    rw [List.mem_cons, not_or] at h
    have h1 : ¬ l = fence := fun e => h.1 e.symm
    simp [findFence, h1, ih h.2]

theorem findFence_append {l1 : List Text} (l2 : List Text) (h : fence ∉ l1) :
    findFence (l1 ++ fence :: l2) = some l1.length := by
  induction l1 with
  | nil => simp [findFence]
  | cons l ls ih =>
    rw [List.mem_cons, not_or] at h
    have h1 : ¬ l = fence := fun e => h.1 e.symm
    simp [findFence, h1, ih h.2]

theorem take_length_append {α : Type} (l1 l2 : List α) : (l1 ++ l2).take l1.length = l1 := by
  induction l1 with
  | nil => rfl
  | cons x xs ih => simp [List.take, ih]

theorem drop_length_append {α : Type} (l1 l2 : List α) : (l1 ++ l2).drop l1.length = l2 := by
  induction l1 with
  | nil => rfl
  | cons x xs ih => simp [List.drop, ih]

end frontmatter

theorem mem_storeInsert_self (k : FsPath) (v : ShFile) (m : Store) :
    (k, v) ∈ storeInsert k v m := by
  induction m with
  | nil => simp [storeInsert]
  | cons kv rest ih =>
    obtain ⟨k2, v2⟩ := kv
    by_cases h : k2 = k
    · simp [storeInsert, h]
    · simp [storeInsert, h, ih]

theorem mem_storeInsert_of_ne {k' : FsPath} {v' : ShFile} {m : Store}
    (hm : (k', v') ∈ m) (k : FsPath) (v : ShFile) (hne : k' ≠ k) :
    (k', v') ∈ storeInsert k v m := by
  induction m with
  | nil => cases hm
  | cons kv rest ih =>
    obtain ⟨k2, v2⟩ := kv
    rw [List.mem_cons] at hm
    by_cases h : k2 = k
    · rcases hm with he | hm
      · exact absurd (congrArg Prod.fst he) (by simpa [h] using hne)
      · simp [storeInsert, h, hm]
    · rcases hm with he | hm
      · simp [storeInsert, h, he]
      · simp [storeInsert, h, ih hm]

theorem exists_mem_storeInsert {k' : FsPath} {m : Store}
    (hm : ∃ v', (k', v') ∈ m) (k : FsPath) (v : ShFile) :
    ∃ v', (k', v') ∈ storeInsert k v m := by
  by_cases hk : k' = k
  · exact ⟨v, hk ▸ mem_storeInsert_self k v m⟩
  · obtain ⟨v', hv'⟩ := hm
    exact ⟨v', mem_storeInsert_of_ne hv' k v hk⟩

theorem read_dir_go_first_error (source : FsPath) (l : List Entry) (e : Entry)
    (rest : List Entry) (n : Nat) (acc : Store)
    (hok : ∀ x ∈ l, ∃ t, x.data = Except.ok t) (he : e.data = Except.error n) :
    read_dir_go source (l ++ e :: rest) acc = Except.error n := by
  induction l generalizing acc with
  | nil => simp [read_dir_go, he]
  | cons x xs ih =>
    obtain ⟨t, ht⟩ := hok x (List.mem_cons_self x xs)
    rw [List.cons_append, read_dir_go, ht]
    exact ih _ (fun y hy => hok y (List.mem_cons_of_mem x hy))

theorem read_dir_go_preserve (source : FsPath) {l : List Entry} {acc st : Store}
    (hgo : read_dir_go source l acc = Except.ok st) {k : FsPath} {v : ShFile}
    (hmem : (k, v) ∈ acc) (hk : k ∉ l.map (relKey source)) : (k, v) ∈ st := by
  induction l generalizing acc with
  | nil =>
    rw [read_dir_go] at hgo
    cases hgo
    exact hmem
  | cons x xs ih =>
    rw [List.map_cons] at hk
    rw [List.mem_cons, not_or] at hk
    rw [read_dir_go] at hgo
    cases hx : x.data with
    | error n => rw [hx] at hgo; cases hgo
    | ok t =>
      rw [hx] at hgo
      exact ih hgo (mem_storeInsert_of_ne hmem _ _ hk.1) hk.2

theorem read_dir_go_keys_preserve (source : FsPath) {l : List Entry} {acc st : Store}
    (hgo : read_dir_go source l acc = Except.ok st) {k : FsPath}
    (hmem : ∃ v, (k, v) ∈ acc) : ∃ v, (k, v) ∈ st := by
  induction l generalizing acc with
  | nil =>
    rw [read_dir_go] at hgo
    cases hgo
    exact hmem
  | cons x xs ih =>
    rw [read_dir_go] at hgo
    cases hx : x.data with
    | error n => rw [hx] at hgo; cases hgo
    | ok t =>
      rw [hx] at hgo
      exact ih hgo (exists_mem_storeInsert hmem _ _)

theorem read_dir_go_mem (source : FsPath) {l : List Entry} {acc st : Store}
    (hgo : read_dir_go source l acc = Except.ok st) {e : Entry} {t : Text}
    (hl : e ∈ l) (ht : e.data = Except.ok t)
    (huniq : (l.map (relKey source)).Nodup) :
    (relKey source e, recordOf t) ∈ st := by
  induction l generalizing acc with
  | nil => cases hl
  | cons x xs ih =>
    rw [List.map_cons, List.nodup_cons] at huniq
    rw [read_dir_go] at hgo
    rw [List.mem_cons] at hl
    rcases hl with he | hl
    · subst he
      rw [ht] at hgo
      exact read_dir_go_preserve source hgo
        (mem_storeInsert_self (relKey source e) (recordOf t) acc) huniq.1
    · cases hx : x.data with
      | error n => rw [hx] at hgo; cases hgo
      | ok t2 =>
        rw [hx] at hgo
        exact ih hgo hl huniq.2

theorem read_dir_go_keys (source : FsPath) {l : List Entry} {acc st : Store}
    (hgo : read_dir_go source l acc = Except.ok st) {e : Entry}
    (hl : e ∈ l) : ∃ v, (relKey source e, v) ∈ st := by
  induction l generalizing acc with
  | nil => cases hl
  | cons x xs ih =>
    rw [read_dir_go] at hgo
    rw [List.mem_cons] at hl
    cases hx : x.data with
    | error n => rw [hx] at hgo; cases hgo
    | ok t =>
      rw [hx] at hgo
      rcases hl with he | hl
      · subst he
        exact read_dir_go_keys_preserve source hgo
          ⟨recordOf t, mem_storeInsert_self _ _ acc⟩
      · exact ih hgo hl

theorem registerAll_ir (s : Shtola) (l : List (IR → IR)) : (registerAll s l).ir = s.ir := by
  induction l generalizing s with
  | nil => rfl
  | cons f fs ih => exact ih (s.register f)

theorem registerAll_fns (s : Shtola) (l : List (IR → IR)) :
    (registerAll s l).ware.fns = s.ware.fns ++ l := by
  induction l generalizing s with
  | nil => simp [registerAll]
  | cons f fs ih =>
    show (registerAll (s.register f) fs).ware.fns = _
    rw [ih]
    simp [Shtola.register, Ware.wrap]

theorem build_clean_ok (s : Shtola) (w : World)
    (hclean : s.ir.config.clean = false ∨ w.destExists = true) :
    build s w =
      match read_dir s.ir.config.source w.entries with
      | Except.error n => Except.error n
      | Except.ok files =>
        Except.ok (s.ware.run ⟨files, s.ir.config⟩,
          write_dir (s.ware.run ⟨files, s.ir.config⟩) s.ir.config.destination) := by
  unfold build
  have h1 : (if s.ir.config.clean then cleanPhase w.destExists else Except.ok ())
      = Except.ok () := by
    rcases hclean with h | h
    · simp [h]
    · rw [h]
      cases h2 : s.ir.config.clean <;> simp [cleanPhase]
  rw [h1]

theorem build_fields (ig : List FsPath) (src dst : FsPath) (cl fm : Bool)
    (ware : Ware IR) (de : Bool) (entries : List Entry) :
    build ⟨ware, ⟨[], ⟨ig, src, dst, cl, fm⟩⟩⟩ ⟨de, entries⟩ =
      match (if cl then cleanPhase de else Except.ok ()) with
      | Except.error n => Except.error n
      | Except.ok _ =>
        match read_dir src entries with
        | Except.error n => Except.error n
        | Except.ok files =>
          Except.ok (ware.run ⟨files, ⟨ig, src, dst, cl, fm⟩⟩,
            write_dir (ware.run ⟨files, ⟨ig, src, dst, cl, fm⟩⟩) dst) := rfl

namespace frontmatter

/-- C4: for every input text whose first line is an opening fence but that
contains no closing fence line before end-of-input, the extractor returns
an empty metadata block and the entire original text, including the
would-be opening fence, as the body. -/
theorem c4_no_closing_fence (text : Text) (rest : List Text)
    (hsplit : splitLines text = fence :: rest) (hclose : fence ∉ rest) :
    lexer text = ([], text) := by
  unfold lexer
  rw [hsplit]
  simp [findFence_eq_none hclose]

/-- Witness for C4 at the concrete input three dashes, newline, foo. -/
theorem c4_no_closing_fence_witness :
    lexer "---\nfoo".toList = ([], "---\nfoo".toList) :=
  c4_no_closing_fence "---\nfoo".toList ["foo".toList] (by decide) (by decide)

/-- C5: for every input text of the form FENCE newline META newline FENCE
newline BODY, where each FENCE is a full line consisting solely of the
delimiter and META contains no fence line (so that the decomposition is
the canonical one at the first closing fence), the extractor returns META
as the metadata block and BODY as the body, byte-for-byte. -/
theorem c5_fenced_block (META BODY : Text) (hm : fence ∉ splitLines META) :
    lexer (fence ++ '\n' :: META ++ '\n' :: fence ++ '\n' :: BODY) = (META, BODY) := by
  have hfl : splitLines fence = [fence] := by decide
  have hsplit : splitLines (fence ++ '\n' :: META ++ '\n' :: fence ++ '\n' :: BODY)
      = fence :: (splitLines META ++ fence :: splitLines BODY) := by
    rw [splitLines_append, splitLines_append, splitLines_append, hfl]
    simp
  have hTake : (splitLines META ++ fence :: splitLines BODY).take (splitLines META).length
      = splitLines META := take_length_append _ _
  have hDrop : (splitLines META ++ fence :: splitLines BODY).drop ((splitLines META).length + 1)
      = splitLines BODY := by
    have h := drop_length_append (splitLines META ++ [fence]) (splitLines BODY)
    rw [List.append_assoc, List.length_append] at h
    exact h
  unfold lexer
  rw [hsplit]
  simp only [findFence_append _ hm, if_true, eq_self_iff_true, hTake, hDrop,
    joinLines_splitLines]

/-- Witness for C5 at a concrete fenced document. -/
theorem c5_fenced_block_witness :
    lexer (fence ++ '\n' :: "title: A".toList ++ '\n' :: fence ++ '\n' :: "body".toList)
      = ("title: A".toList, "body".toList) :=
  c5_fenced_block "title: A".toList "body".toList (by decide)

end frontmatter

/-- C1: for every configuration, every sequence of stages registered via
`register`, and every source world whose read succeeds, `build` runs the
stages strictly sequentially in registration order by a left fold, each
stage receiving the IR produced by its predecessor (the read IR for the
first stage), and the result IR of the build is the final stage output;
registering A then B means B observes the output of A. -/
theorem c1_pipeline_order (c : Config) (stages : List (IR → IR)) (w : World)
    (files : Store) (hclean : c.clean = false)
    (hread : read_dir c.source w.entries = Except.ok files) :
    build (registerAll (mkShtola c) stages) w =
      Except.ok (stages.foldl (fun ir f => f ir) ⟨files, c⟩,
        write_dir (stages.foldl (fun ir f => f ir) ⟨files, c⟩) c.destination) := by
  have hir : (registerAll (mkShtola c) stages).ir = (⟨[], c⟩ : IR) :=
    registerAll_ir (mkShtola c) stages
  have hfns : (registerAll (mkShtola c) stages).ware.fns = stages := by
    rw [registerAll_fns]
    rfl
  rw [build_clean_ok _ _ (Or.inl (by rw [hir]; exact hclean))]
  rw [hir]
  show (match read_dir c.source w.entries with
    | Except.error n => Except.error n
    | Except.ok files2 =>
      Except.ok ((registerAll (mkShtola c) stages).ware.run ⟨files2, c⟩,
        write_dir ((registerAll (mkShtola c) stages).ware.run ⟨files2, c⟩) c.destination)) = _
  rw [hread]
  show Except.ok ((registerAll (mkShtola c) stages).ware.run ⟨files, c⟩,
    write_dir ((registerAll (mkShtola c) stages).ware.run ⟨files, c⟩) c.destination) = _
  rw [show (registerAll (mkShtola c) stages).ware.run (⟨files, c⟩ : IR)
      = stages.foldl (fun ir f => f ir) ⟨files, c⟩ by rw [Ware.run, hfns]]

/-- Witness for C1: stage A replaces every content with X, stage B appends
Y; B observes the X written by A and the final content is XY. -/
theorem c1_pipeline_order_witness :
    build (registerAll (mkShtola { defaultConfig with destination := ["out"] })
        [fun ir => ⟨ir.files.map (fun pf => (pf.1, ⟨pf.2.frontmatter, ['X']⟩)), ir.config⟩,
         fun ir => ⟨ir.files.map (fun pf => (pf.1, ⟨pf.2.frontmatter, pf.2.content ++ ['Y']⟩)),
           ir.config⟩])
        ⟨true, [⟨["f.txt"], false, Except.ok "hi".toList⟩]⟩
      = Except.ok (⟨[(["f.txt"], ⟨[], ['X', 'Y']⟩)], { defaultConfig with destination := ["out"] }⟩,
          [(["out", "f.txt"], ['X', 'Y'])]) := by
  have h := c1_pipeline_order { defaultConfig with destination := ["out"] }
    [fun ir => ⟨ir.files.map (fun pf => (pf.1, ⟨pf.2.frontmatter, ['X']⟩)), ir.config⟩,
     fun ir => ⟨ir.files.map (fun pf => (pf.1, ⟨pf.2.frontmatter, pf.2.content ++ ['Y']⟩)),
       ir.config⟩]
    ⟨true, [⟨["f.txt"], false, Except.ok "hi".toList⟩]⟩
    [(["f.txt"], ⟨[], "hi".toList⟩)] rfl (by rfl)
  rw [h]
  rfl

/-- C7: during the read phase, any non-directory entry whose open or decode
fails makes `build` return that I/O error; the read aborts at the first
such entry (entries before it all read cleanly, entries after it are never
consulted) and no File Store is produced. -/
theorem c7_read_aborts_first_error (s : Shtola) (destE : Bool)
    (pre post : List Entry) (e : Entry) (n : Nat)
    (hclean : s.ir.config.clean = false ∨ destE = true)
    (hpre : ∀ x ∈ pre, x.isDirectory = false → ∃ t, x.data = Except.ok t)
    (hdir : e.isDirectory = false) (hdata : e.data = Except.error n) :
    build s ⟨destE, pre ++ e :: post⟩ = Except.error n := by
  rw [build_clean_ok s _ hclean]
  have hr : read_dir s.ir.config.source (pre ++ e :: post) = Except.error n := by
    unfold read_dir
    rw [List.filter_append]
    have he : (e :: post).filter (fun x => !x.isDirectory)
        = e :: post.filter (fun x => !x.isDirectory) := by
      simp [List.filter_cons, hdir]
    rw [he]
    refine read_dir_go_first_error _ _ e _ n [] ?_ hdata
    intro x hx
    rw [List.mem_filter] at hx
    exact hpre x hx.1 (by simpa using hx.2)
  rw [hr]

/-- Witness for C7: a readable file followed by an unreadable one; the
build returns the I/O error of the unreadable file. -/
theorem c7_read_aborts_first_error_witness :
    build (mkShtola defaultConfig)
        ⟨true, [⟨["good.txt"], false, Except.ok "hi".toList⟩,
                ⟨["bad.txt"], false, Except.error 13⟩]⟩
      = Except.error 13 :=
  c7_read_aborts_first_error (mkShtola defaultConfig) true
    [⟨["good.txt"], false, Except.ok "hi".toList⟩] []
    ⟨["bad.txt"], false, Except.error 13⟩ 13 (Or.inl rfl)
    (by
      intro x hx hxdir
      exact ⟨"hi".toList, by rw [List.mem_singleton] at hx; rw [hx]⟩)
    rfl rfl

/-- C2 counterexample: a zero-stage build over a single source file whose
text carries a completed front-matter block writes only the body, not the
original bytes, so the written output is not byte-identical to the input. -/
theorem c2_not_byte_identical :
    Except.map Prod.snd (build (mkShtola { defaultConfig with destination := ["out"] })
        ⟨true, [⟨["f.md"], false, Except.ok "---\nx\n---\nbody".toList⟩]⟩)
      = Except.ok [(["out", "f.md"], "body".toList)]
    ∧ "body".toList ≠ "---\nx\n---\nbody".toList := by
  refine ⟨rfl, ?_⟩
  decide

/-- C2 (amended): a build with zero registered stages writes, for each
source file, the front-matter extractor body of its text at the identical
relative path under the destination root; in particular, whenever the
extractor leaves the text whole (as for every file not starting with a
completed front-matter block), the written bytes are identical to the
input bytes. -/
theorem c2_zero_stage_write_body (c : Config) (w : World) (st : Store)
    (e : Entry) (t : Text)
    (hclean : c.clean = false)
    (hread : read_dir c.source w.entries = Except.ok st)
    (he : e ∈ w.entries) (hdir : e.isDirectory = false)
    (ht : e.data = Except.ok t)
    (huniq : ((w.entries.filter (fun x => !x.isDirectory)).map (relKey c.source)).Nodup) :
    ∃ ws, build (mkShtola c) w = Except.ok (⟨st, c⟩, ws)
      ∧ (c.destination ++ relKey c.source e, (frontmatter.lexer t).2) ∈ ws := by
  have hb : build (mkShtola c) w = Except.ok (⟨st, c⟩, write_dir ⟨st, c⟩ c.destination) := by
    rw [build_clean_ok (mkShtola c) w (Or.inl hclean)]
    show (match read_dir c.source w.entries with
      | Except.error n => Except.error n
      | Except.ok files =>
        Except.ok ((mkShtola c).ware.run ⟨files, c⟩,
          write_dir ((mkShtola c).ware.run ⟨files, c⟩) c.destination)) = _
    rw [hread]
    rfl
  refine ⟨write_dir ⟨st, c⟩ c.destination, hb, ?_⟩
  have hf : e ∈ w.entries.filter (fun x => !x.isDirectory) :=
    List.mem_filter.mpr ⟨he, by simp [hdir]⟩
  have hmem : (relKey c.source e, recordOf t) ∈ st := by
    unfold read_dir at hread
    exact read_dir_go_mem c.source hread hf ht huniq
  exact List.mem_map.mpr ⟨(relKey c.source e, recordOf t), hmem, rfl⟩

/-- Witness for C2 (amended) on a tree with a single plain file: the write
set contains the input bytes at the identical relative path. -/
theorem c2_zero_stage_write_body_witness :
    ∃ ws, build (mkShtola { defaultConfig with destination := ["out"] })
        ⟨true, [⟨["hello.txt"], false, Except.ok "hello".toList⟩]⟩
      = Except.ok (⟨[(["hello.txt"], ⟨[], "hello".toList⟩)],
          { defaultConfig with destination := ["out"] }⟩, ws)
      ∧ (["out", "hello.txt"], "hello".toList) ∈ ws := by
  have h := c2_zero_stage_write_body { defaultConfig with destination := ["out"] }
    ⟨true, [⟨["hello.txt"], false, Except.ok "hello".toList⟩]⟩
    [(["hello.txt"], ⟨[], "hello".toList⟩)]
    ⟨["hello.txt"], false, Except.ok "hello".toList⟩ "hello".toList
    rfl (by rfl) (List.mem_singleton.mpr rfl) rfl rfl (by decide)
  exact h

/-- C3: the front-matter configuration flag is never consulted by the read
phase — `read_dir` receives only the source path — so even with the flag
disabled, a file with a front-matter block is read into a record whose
parsed metadata is nonempty, and the build output strips the block. -/
theorem c3_flag_never_consulted :
    build (mkShtola { defaultConfig with destination := ["out"], frontmatter := false })
        ⟨true, [⟨["a.md"], false, Except.ok "---\ntitle: A\n---\nbody".toList⟩]⟩
      = Except.ok (⟨[(["a.md"], ⟨["title: A".toList], "body".toList⟩)],
          { defaultConfig with destination := ["out"], frontmatter := false }⟩,
          [(["out", "a.md"], "body".toList)])
    ∧ (["title: A".toList] : List Text) ≠ [] := by
  refine ⟨rfl, ?_⟩
  decide

/-- C8: after `ignores [a]` followed by `ignores [b, a]`, the ignore list
is a, b, a — `Vec::dedup` removes only consecutive duplicates, so the list
still contains a twice and set semantics fail. -/
theorem c8_dedup_consecutive_only :
    (Shtola.ignores (Shtola.ignores Shtola.new [["a"]]) [["b"], ["a"]]).ir.config.ignores
      = [["a"], ["b"], ["a"]]
    ∧ ¬ ((Shtola.ignores (Shtola.ignores Shtola.new [["a"]]) [["b"], ["a"]]).ir.config.ignores).Nodup := by
  refine ⟨rfl, ?_⟩
  decide

/-- C6 counterexample: with the clean flag set and a nonexistent
destination, the build aborts with the NotFound error of
`fs::remove_dir_all` even though every source file is readable — the same
build without the clean flag succeeds — refuting the claim that the clean
phase succeeds when the destination does not exist. -/
theorem c6_clean_missing_dest_error :
    build (mkShtola { defaultConfig with destination := ["out"], clean := true })
        ⟨false, [⟨["hello.txt"], false, Except.ok "hi".toList⟩]⟩
      = Except.error 2
    ∧ build (mkShtola { defaultConfig with destination := ["out"] })
        ⟨false, [⟨["hello.txt"], false, Except.ok "hi".toList⟩]⟩
      = Except.ok (⟨[(["hello.txt"], ⟨[], "hi".toList⟩)],
          { defaultConfig with destination := ["out"] }⟩,
          [(["out", "hello.txt"], "hi".toList)]) :=
  ⟨rfl, rfl⟩

/-- C6 (amended): when the clean flag is set, build attempts the recursive
deletion of the destination unconditionally; when the destination does not
exist the deletion itself fails with NotFound and the build aborts with
that error before any file is read (the outcome is independent of the
source entries), and when the destination exists the clean phase succeeds
and the build proceeds to the read phase. -/
theorem c6_clean_unconditional (s : Shtola) (hclean : s.ir.config.clean = true) :
    (∀ entries entries' : List Entry,
      build s ⟨false, entries⟩ = Except.error 2
      ∧ build s ⟨false, entries⟩ = build s ⟨false, entries'⟩)
    ∧ (∀ entries : List Entry, build s ⟨true, entries⟩ =
        match read_dir s.ir.config.source entries with
        | Except.error n => Except.error n
        | Except.ok files =>
          Except.ok (s.ware.run ⟨files, s.ir.config⟩,
            write_dir (s.ware.run ⟨files, s.ir.config⟩) s.ir.config.destination)) := by
  have h1 : ∀ entries : List Entry, build s ⟨false, entries⟩ = Except.error 2 := by
    intro entries
    unfold build
    rw [hclean]
    rfl
  exact ⟨fun e1 e2 => ⟨h1 e1, (h1 e1).trans (h1 e2).symm⟩,
    fun entries => build_clean_ok s ⟨true, entries⟩ (Or.inr rfl)⟩

/-- Witness for C6 (amended) at a concrete clean-enabled builder with a
missing destination: the build returns the NotFound error. -/
theorem c6_clean_unconditional_witness :
    build (mkShtola { defaultConfig with clean := true })
        ⟨false, [⟨["a.txt"], false, Except.ok "x".toList⟩]⟩
      = Except.error 2 :=
  ((c6_clean_unconditional (mkShtola { defaultConfig with clean := true }) rfl).1
    [⟨["a.txt"], false, Except.ok "x".toList⟩] []).1

/-- C9 counterexample: two builds with the same single registered stage
whose configurations differ only in the ignore list write different file
sets, because the stage observes `config.ignores` in the IR it receives —
the ignore list is not invisible to the pipeline. -/
theorem c9_ignores_observable :
    Except.map Prod.snd (build (Shtola.register
        (mkShtola { defaultConfig with destination := ["out"] })
        (fun ir => if ir.config.ignores = [] then ir else ⟨[], ir.config⟩))
        ⟨true, [⟨["f.txt"], false, Except.ok "hi".toList⟩]⟩)
      = Except.ok [(["out", "f.txt"], "hi".toList)]
    ∧ Except.map Prod.snd (build (Shtola.register
        (mkShtola { defaultConfig with destination := ["out"], ignores := [["x"]] })
        (fun ir => if ir.config.ignores = [] then ir else ⟨[], ir.config⟩))
        ⟨true, [⟨["f.txt"], false, Except.ok "hi".toList⟩]⟩)
      = Except.ok []
    ∧ ([(["out", "f.txt"], "hi".toList)] : List (FsPath × Text)) ≠ [] := by
  refine ⟨rfl, rfl, ?_⟩
  decide

/-- C9 (amended): for two zero-stage builds whose configurations differ
only in the ignore-path list, the File Store of the result and the writes
performed are identical — the build machinery itself never consults the
ignore list (it only hands it to stages inside the configuration) — and
whenever the read phase succeeds it keys every non-directory entry of the
walk under its source-root-relative path. -/
theorem c9_ignores_noninterference (c : Config) (l1 l2 : List FsPath) (w : World) :
    Except.map (fun r => (r.1.files, r.2))
        (build (mkShtola { c with ignores := l1 }) w)
      = Except.map (fun r => (r.1.files, r.2))
        (build (mkShtola { c with ignores := l2 }) w)
    ∧ (∀ st, read_dir c.source w.entries = Except.ok st →
        ∀ e ∈ w.entries, e.isDirectory = false → ∃ v, (relKey c.source e, v) ∈ st) := by
  obtain ⟨ig, src, dst, cl, fm⟩ := c
  obtain ⟨de, entries⟩ := w
  constructor
  · show Except.map (fun r => (r.1.files, r.2))
        (build ⟨Ware.new, ⟨[], ⟨l1, src, dst, cl, fm⟩⟩⟩ ⟨de, entries⟩)
      = Except.map (fun r => (r.1.files, r.2))
        (build ⟨Ware.new, ⟨[], ⟨l2, src, dst, cl, fm⟩⟩⟩ ⟨de, entries⟩)
    rw [build_fields, build_fields]
    cases hif : (if cl then cleanPhase de else Except.ok ()) with
    | error n => rfl
    | ok u =>
      cases hr : read_dir src entries with
      | error n => rfl
      | ok files => rfl
  · intro st hst e he hdir
    unfold read_dir at hst
    exact read_dir_go_keys src hst
      (List.mem_filter.mpr ⟨he, by simp [hdir]⟩)

/-- Witness for C9 (amended): concrete zero-stage builds differing only in
the ignore list produce the same store and writes, and the read store keys
the walked file. -/
theorem c9_ignores_noninterference_witness :
    Except.map (fun r : IR × List (FsPath × Text) => (r.1.files, r.2))
        (build (mkShtola { defaultConfig with ignores := [] }) ⟨true, [⟨["f.txt"], false, Except.ok "hi".toList⟩]⟩)
      = Except.map (fun r : IR × List (FsPath × Text) => (r.1.files, r.2))
        (build (mkShtola { defaultConfig with ignores := [["x"]] }) ⟨true, [⟨["f.txt"], false, Except.ok "hi".toList⟩]⟩)
    ∧ ∃ v, (["f.txt"], v) ∈ ([(["f.txt"], ⟨[], "hi".toList⟩)] : Store) := by
  have h := c9_ignores_noninterference defaultConfig [] [["x"]]
    ⟨true, [⟨["f.txt"], false, Except.ok "hi".toList⟩]⟩
  refine ⟨h.1, ?_⟩
  have h2 := h.2 [(["f.txt"], ⟨[], "hi".toList⟩)] (by rfl)
    ⟨["f.txt"], false, Except.ok "hi".toList⟩ (List.mem_singleton.mpr rfl) rfl
  exact h2

/-- C10: the write phase depends only on the destination stored in the
configuration before the pipeline runs and on the File Store of the
pipeline result: appending a stage that rewrites only the configuration
(any new destination, clean flag, and so on) leaves the writes unchanged;
a successful build writes exactly `write_dir` of its result at the
pre-pipeline destination; and two results with equal File Stores produce
identical writes. -/
theorem c10_write_frame (s : Shtola) (w : World) (g : Config → Config) :
    Except.map Prod.snd (build (Shtola.register s (fun ir => ⟨ir.files, g ir.config⟩)) w)
      = Except.map Prod.snd (build s w)
    ∧ (∀ r ws, build s w = Except.ok (r, ws) → ws = write_dir r s.ir.config.destination)
    ∧ (∀ ir1 ir2 : IR, ∀ d : FsPath, ir1.files = ir2.files → write_dir ir1 d = write_dir ir2 d) := by
  refine ⟨?_, ?_, ?_⟩
  · show Except.map Prod.snd
        (build ⟨⟨s.ware.fns ++ [fun ir => ⟨ir.files, g ir.config⟩]⟩, s.ir⟩ w)
      = Except.map Prod.snd (build s w)
    unfold build
    cases hif : (if s.ir.config.clean then cleanPhase w.destExists else Except.ok ()) with
    | error n => rfl
    | ok u =>
      cases hr : read_dir s.ir.config.source w.entries with
      | error n => rfl
      | ok files =>
        show Except.ok (Prod.snd (_, write_dir (Ware.run ⟨s.ware.fns ++ [fun ir => (⟨ir.files, g ir.config⟩ : IR)]⟩ ⟨files, s.ir.config⟩) s.ir.config.destination))
          = Except.ok (Prod.snd (_, write_dir (Ware.run s.ware ⟨files, s.ir.config⟩) s.ir.config.destination))
        have hrun : Ware.run ⟨s.ware.fns ++ [fun ir => (⟨ir.files, g ir.config⟩ : IR)]⟩
            (⟨files, s.ir.config⟩ : IR)
            = ⟨(Ware.run s.ware ⟨files, s.ir.config⟩).files,
               g (Ware.run s.ware ⟨files, s.ir.config⟩).config⟩ := by
          show List.foldl (fun acc f => f acc) (⟨files, s.ir.config⟩ : IR)
              (s.ware.fns ++ [fun ir => (⟨ir.files, g ir.config⟩ : IR)]) = _
          rw [List.foldl_append]
          rfl
        rw [hrun]
        rfl
  · intro r ws h
    unfold build at h
    cases hif : (if s.ir.config.clean then cleanPhase w.destExists else Except.ok ()) with
    | error n => rw [hif] at h; cases h
    | ok u =>
      rw [hif] at h
      cases hr : read_dir s.ir.config.source w.entries with
      | error n => rw [hr] at h; cases h
      | ok files =>
        rw [hr] at h
        simp only [Except.ok.injEq, Prod.mk.injEq] at h
        rw [← h.1, ← h.2]
  · intro ir1 ir2 d h
    unfold write_dir
    rw [h]

/-- Witness for C10 at a concrete build: the writes of the successful build
equal `write_dir` of its result IR at the pre-pipeline destination. -/
theorem c10_write_frame_witness :
    ([(["out", "f.txt"], "hi".toList)] : List (FsPath × Text))
      = write_dir ⟨[(["f.txt"], ⟨[], "hi".toList⟩)],
          { defaultConfig with destination := ["out"] }⟩ ["out"] :=
  (c10_write_frame (mkShtola { defaultConfig with destination := ["out"] })
      ⟨true, [⟨["f.txt"], false, Except.ok "hi".toList⟩]⟩
      (fun c => { c with clean := true })).2.1
    ⟨[(["f.txt"], ⟨[], "hi".toList⟩)], { defaultConfig with destination := ["out"] }⟩
    [(["out", "f.txt"], "hi".toList)] rfl
